import Mathlib

/-!
Verification of the streaming chat orchestration core of the pdf-chatbot
backend (`src/app.py`).  The definitions below are a shallow embedding of
the Python source: Mongo documents become association lists, the Gemini
token stream becomes an explicit outcome value (the fragments it yields
followed by an optional exception message), and the SSE wire format is
modelled down to the character level, including Python's `json.dumps`
string escaping and the `chunk.split('data: ')[1]` / `json.loads`
round-trip performed by the accumulator in `generate_response`.
-/

/-! ## Data model (`src/app.py`: chat documents stored in `chats_collection`) -/

/-- One question/answer exchange as stored in a chat document's `history`
array (`src/app.py` line 237: `{"user": user_question, "bot_markdown": full_bot_response}`). -/
structure Turn where
  user : String
  bot_markdown : String
deriving DecidableEq, Repr

/-- A chat document as created in `handle_chat`
(`{"user_id": ..., "title": ..., "timestamp": ..., "pdf_text": ..., "history": []}`).
The Mongo `_id` is kept outside the document, as the key of the collection. -/
structure ChatDoc where
  user_id : String
  title : String
  timestamp : Nat
  pdf_text : String
  history : List Turn
deriving DecidableEq, Repr

/-- The `chats_collection`: an association list from `_id` (rendered as the
string `str(ObjectId)`) to the stored document. -/
abbrev ChatsCollection := List (String × ChatDoc)

/-- One entry of the `messages` list sent to the model
(`{"role": ..., "parts": [...]}`). -/
structure Message where
  role : String
  parts : List String
deriving DecidableEq, Repr

/-- Behaviour of the opaque Gemini `response_stream` for one request: the
`chunk.text` values it yields in order (possibly empty strings), followed,
when `err = some e`, by an exception whose `str(e)` is `e`.  An exception
before the first chunk is the case `chunks = []`. -/
structure StreamOutcome where
  chunks : List String
  err : Option String
deriving DecidableEq, Repr

/-- The token stream source as an external collaborator: what outcome the
model produces for a given assembled message list. -/
def TokenSource := List Message → StreamOutcome

/-! ## Python `json.dumps` string escaping

`json.dumps` with its defaults (`ensure_ascii=True`) emits `\"`, `\\`,
`\n`, `\r`, `\t`, `\b`, `\f`, `\u00xx` for remaining control characters,
the character itself for printable ASCII, `\uxxxx` (lowercase hex) for
other characters up to `0xffff`, and a `\ud8xx\udcxx` surrogate pair for
astral characters. -/

/-- Lowercase hex digit, as emitted by `json.dumps`. -/
def hexDigitChar (n : Nat) : Char :=
  Char.ofNat (if n < 10 then 48 + n else 87 + n)

/-- Four lowercase hex digits of `n % 0x10000`, most significant first. -/
def toHex4 (n : Nat) : List Char :=
  [hexDigitChar (n / 4096 % 16), hexDigitChar (n / 256 % 16),
   hexDigitChar (n / 16 % 16), hexDigitChar (n % 16)]

/-- The characters `json.dumps` emits for one character of a Python string. -/
def pyEscapeChar (c : Char) : List Char :=
  if c = '"' then ['\\', '"']
  else if c = '\\' then ['\\', '\\']
  else if c = '\n' then ['\\', 'n']
  else if c = '\r' then ['\\', 'r']
  else if c = '\t' then ['\\', 't']
  else if c = '\x08' then ['\\', 'b']
  else if c = '\x0c' then ['\\', 'f']
  else if c.toNat < 0x20 then '\\' :: 'u' :: toHex4 c.toNat
  else if c.toNat ≤ 0x7e then [c]
  else if c.toNat ≤ 0xffff then '\\' :: 'u' :: toHex4 c.toNat
  else
    '\\' :: 'u' :: toHex4 (0xd800 + (c.toNat - 0x10000) / 0x400) ++
      ('\\' :: 'u' :: toHex4 (0xdc00 + (c.toNat - 0x10000) % 0x400))

/-- Escaped body of a JSON string literal. -/
def pyEscape (l : List Char) : List Char := l.flatMap pyEscapeChar

/-- `json.dumps` of a Python string: quoted, escaped. -/
def pyJsonStr (s : String) : String :=
  "\"" ++ String.mk (pyEscape s.data) ++ "\""

/-! ## The three SSE chunk shapes emitted by the backend -/

/-- `f"data: \x7bjson.dumps({'text': t})\x7d\n\n"` as yielded for one
non-empty fragment (`src/app.py` line 77). -/
def sseTextChunk (t : String) : String :=
  "data: \x7b\"text\": " ++ pyJsonStr t ++ "\x7d\n\n"

/-- The in-stream error chunk yielded when the Gemini call raises
(`src/app.py` line 81). -/
def sseErrorChunk (e : String) : String :=
  "data: \x7b\"error\": " ++ pyJsonStr e ++ "\x7d\n\n"

/-- The terminal chunk yielded after the history commit
(`src/app.py` line 238). -/
def sseEndChunk (chat_id : String) : String :=
  "data: \x7b\"end_of_stream\": true, \"chat_id\": " ++ pyJsonStr chat_id ++ "\x7d\n\n"

/-! ## Python `str.split('data: ')`

The source splits chunks on the one fixed separator `'data: '`
(`chunk.split('data: ')[1]`), so the split is modelled specialised to it:
scan left to right, cut at each (leftmost, non-overlapping) occurrence of
the six separator characters. -/

/-- Python `chunk.split('data: ')`. -/
def pySplitData : List Char → List (List Char)
  | 'd' :: 'a' :: 't' :: 'a' :: ':' :: ' ' :: rest => [] :: pySplitData rest
  | c :: rest =>
    match pySplitData rest with
    | [] => [[c]]
    | p :: ps => (c :: p) :: ps
  | [] => [[]]

/-- Whether `'data: '` occurs as a substring (`'data: ' in s`). -/
def hasDataSep : List Char → Bool
  | 'd' :: 'a' :: 't' :: 'a' :: ':' :: ' ' :: _ => true
  | _ :: rest => hasDataSep rest
  | [] => false

/-! ## The fraction of `json.loads` exercised by the accumulator

`generate_response` feeds `chunk.split('data: ')[1]` to `json.loads` and
reads `data['text']` when the key is present.  The only strings that can
reach it are the chunk payloads above, or the part of a payload lying
before an occurrence of `'data: '` inside it.  `parseTextPiece` returns
`some t` exactly when `json.loads` succeeds on such a string and the
resulting dict has a `'text'` key (of value `t`); the `'error'` and
`'end_of_stream'` payloads parse in Python but have no `'text'` key, and
every proper prefix of a payload makes `json.loads` raise, so both are
`none` here. -/

/-- Hex digit value accepted by a JSON `\uXXXX` escape. -/
def hexVal (c : Char) : Option Nat :=
  if '0' ≤ c ∧ c ≤ '9' then some (c.toNat - 48)
  else if 'a' ≤ c ∧ c ≤ 'f' then some (c.toNat - 87)
  else if 'A' ≤ c ∧ c ≤ 'F' then some (c.toNat - 55)
  else none

/-- Value of four hex digits, most significant first. -/
def hex4Val (a b c d : Char) : Option Nat :=
  match hexVal a, hexVal b, hexVal c, hexVal d with
  | some x, some y, some z, some w => some (((x * 16 + y) * 16 + z) * 16 + w)
  | _, _, _, _ => none

/-- Decode a `\uXXXX` escape (the input starts after the `\u`),
combining a high/low surrogate pair as `json.loads` does.  Returns the
decoded character and the remaining input. -/
def parseUEsc : List Char → Option (Char × List Char)
  | a :: b :: c :: d :: rest =>
    (match hex4Val a b c d with
     | none => none
     | some n =>
       if 0xd800 ≤ n ∧ n ≤ 0xdbff then
         match rest with
         | s1 :: s2 :: a2 :: b2 :: c2 :: d2 :: rest2 =>
           if s1 = '\\' ∧ s2 = 'u' then
             match hex4Val a2 b2 c2 d2 with
             | none => none
             | some m =>
               if 0xdc00 ≤ m ∧ m ≤ 0xdfff then
                 some (Char.ofNat (0x10000 + (n - 0xd800) * 0x400 + (m - 0xdc00)), rest2)
               else none
           else none
         | _ => none
       else if 0xdc00 ≤ n ∧ n ≤ 0xdfff then none
       else some (Char.ofNat n, rest))
  | _ => none

/-- Decode one escape sequence (the input starts after the backslash). -/
def parseEsc : List Char → Option (Char × List Char)
  | [] => none
  | e :: rest =>
    if e = '"' then some ('"', rest)
    else if e = '\\' then some ('\\', rest)
    else if e = '/' then some ('/', rest)
    else if e = 'b' then some ('\x08', rest)
    else if e = 'f' then some ('\x0c', rest)
    else if e = 'n' then some ('\n', rest)
    else if e = 'r' then some ('\r', rest)
    else if e = 't' then some ('\t', rest)
    else if e = 'u' then parseUEsc rest
    else none

/-- String-literal body parser, bounded by a fuel that decreases once per
decoded character.  Every step consumes at least one input character, so
a fuel of the input length never runs out before the input does, and the
fuel-0 answer `none` agrees with the answer on the then-empty input. -/
def parseStringCharsF : Nat → List Char → Option (List Char × List Char)
  | 0, _ => none
  | _ + 1, [] => none
  | fuel + 1, c :: rest =>
    if c = '"' then some ([], rest)
    else if c = '\\' then
      match parseEsc rest with
      | none => none
      | some (ch, rest2) => (parseStringCharsF fuel rest2).map (fun p => (ch :: p.1, p.2))
    else (parseStringCharsF fuel rest).map (fun p => (c :: p.1, p.2))

/-- JSON string-literal body parser: consumes characters and escape
sequences until the closing quote, returning the decoded characters and
the rest of the input. -/
def parseStringChars (l : List Char) : Option (List Char × List Char) :=
  parseStringCharsF l.length l

/-- Whitespace `json.loads` skips around a document. -/
def isPyJsonWs (c : Char) : Bool :=
  c == ' ' || c == '\t' || c == '\n' || c == '\r'

/-- Consume an expected literal, returning the remainder. -/
def dropLiteral : List Char → List Char → Option (List Char)
  | [], l => some l
  | _ :: _, [] => none
  | x :: xs, c :: cs => if c = x then dropLiteral xs cs else none

/-- Leading characters of every `{"text": ...}` payload. -/
def textHeader : List Char := ("\x7b\"text\": \"").data

/-- `json.loads(piece)` followed by the `'text' in data` check, on the
strings reachable from the backend's chunks (see the section comment). -/
def parseTextPiece (l : List Char) : Option String :=
  match dropLiteral textHeader l with
  | none => none
  | some rest =>
    match parseStringChars rest with
    | none => none
    | some (cs, rest2) =>
      match rest2 with
      | '\x7d' :: ws => if ws.all isPyJsonWs then some (String.mk cs) else none
      | _ => none

/-- The separator `'data: '` used by the accumulation loop's `chunk.split`. -/
def sepData : List Char := ("data: ").data

/-- One iteration of the accumulation loop in `generate_response`
(`src/app.py` lines 229-235): split the yielded chunk on `'data: '`, take
element `[1]` (`IndexError` is passed over), `json.loads` it
(`json.JSONDecodeError` is passed over), and append `data['text']` when
the key is present. -/
def accumStep (full_bot_response : String) (chunk : String) : String :=
  match (pySplitData chunk.data)[1]? with
  | none => full_bot_response
  | some piece =>
    match parseTextPiece piece with
    | some t => full_bot_response ++ t
    | none => full_bot_response

/-! ## Session store operations (`chats_collection`) -/

/-- `chats_collection.find_one({"_id": ObjectId(cid), "user_id": uid})`:
first document matching both the id and the owner. -/
def find_one : ChatsCollection → String → String → Option ChatDoc
  | [], _, _ => none
  | (i, d) :: rest, cid, uid =>
    if i = cid ∧ d.user_id = uid then some d else find_one rest cid uid

/-- `chats_collection.insert_one(new_chat)` with the freshly assigned id. -/
def insert_one (coll : ChatsCollection) (cid : String) (d : ChatDoc) : ChatsCollection :=
  coll ++ [(cid, d)]

/-- `chats_collection.update_one({"_id": ObjectId(cid)}, {"$push": {"history": turn}})`:
appends the turn to the history of the first document whose id matches;
a no-op when no document matches. -/
def update_one_push : ChatsCollection → String → Turn → ChatsCollection
  | [], _, _ => []
  | (i, d) :: rest, cid, t =>
    if i = cid then (i, { d with history := d.history ++ [t] }) :: rest
    else (i, d) :: update_one_push rest cid t

/-! ## Prompt assembly and streaming (`get_gemini_response_stream`) -/

/-- The `messages` list built in `get_gemini_response_stream`
(`src/app.py` lines 64-69): the framing document message, then per history
entry a user and a model message, then the new question. -/
def gemini_messages (chat_history : List Turn) (user_question : String)
    (pdf_text : String) : List Message :=
  let messages : List Message :=
    [⟨"user", ["DOCUMENT TEXT:\n---\n" ++ pdf_text ++ "\n---"]⟩]
  let messages := chat_history.foldl
    (fun ms entry => ms ++ [⟨"user", [entry.user]⟩, ⟨"model", [entry.bot_markdown]⟩])
    messages
  messages ++ [⟨"user", [user_question]⟩]

/-- The SSE chunks yielded by `get_gemini_response_stream`
(`src/app.py` lines 58-81): one text chunk per yielded fragment with
non-empty `chunk.text` (the `if chunk.text:` guard), in order, followed by
one error chunk when the try block's body raises. -/
def get_gemini_response_stream (source : TokenSource) (chat_history : List Turn)
    (user_question : String) (pdf_text : String) : List String :=
  let messages := gemini_messages chat_history user_question pdf_text
  let o := source messages
  (o.chunks.filter (fun t => t ≠ "")).map sseTextChunk ++
    (match o.err with
     | none => []
     | some e => [sseErrorChunk e])

/-! ## The orchestrator (`handle_chat` and its `generate_response` closure) -/

/-- The `generate_response` generator (`src/app.py` lines 227-238) run to
exhaustion: yields every upstream chunk while accumulating
`full_bot_response`, then performs the `update_one` `$push` commit and
yields the terminal chunk.  `commitOk = false` models the `update_one`
call raising: the generator is aborted at that point, so the terminal
chunk is never yielded and the collection is unchanged.  Returns the
yielded chunks and the resulting collection. -/
def generate_response (source : TokenSource) (coll : ChatsCollection) (chat_id : String)
    (chat_data : ChatDoc) (user_question : String) (commitOk : Bool) :
    List String × ChatsCollection :=
  let chunks := get_gemini_response_stream source chat_data.history user_question chat_data.pdf_text
  let full_bot_response := chunks.foldl accumStep ""
  if commitOk then
    (chunks ++ [sseEndChunk chat_id],
     update_one_push coll chat_id ⟨user_question, full_bot_response⟩)
  else
    (chunks, coll)

/-- Outcome of the `/api/chat` route: an ordinary failure response, or the
event-stream response (its yielded chunks, in order). -/
inductive ChatResponse where
  | rejected (status : Nat) (error : String)
  | streamed (events : List String)
deriving DecidableEq, Repr

/-- New-chat branch of `handle_chat` (`src/app.py` lines 204-221):
`pdf_file` is the uploaded file when present, reduced to the result of
`extract_pdf_text_from_path` on it (`none` when extraction fails, which
is also what an empty upload produces since `fitz.open` cannot read it).
On success the new document is inserted, then streaming runs. -/
def handle_chat_new (coll : ChatsCollection) (uid q : String)
    (pdf_file : Option (Option String)) (freshId : String) (timestamp : Nat)
    (source : TokenSource) (commitOk : Bool) : ChatResponse × ChatsCollection :=
  match pdf_file with
  | none => (.rejected 400 "A PDF file is required for a new chat.", coll)
  | some none => (.rejected 500 "Failed to read PDF.", coll)
  | some (some pdf_text) =>
    let new_chat : ChatDoc :=
      { user_id := uid, title := q.take 40 ++ "...", timestamp := timestamp,
        pdf_text := pdf_text, history := [] }
    let coll1 := insert_one coll freshId new_chat
    let r := generate_response source coll1 freshId new_chat q commitOk
    (.streamed r.1, r.2)

/-- Existing-chat branch of `handle_chat` (`src/app.py` lines 223-225):
owner-scoped lookup, 404 on a miss, otherwise streaming runs. -/
def handle_chat_existing (coll : ChatsCollection) (uid q cid : String)
    (source : TokenSource) (commitOk : Bool) : ChatResponse × ChatsCollection :=
  match find_one coll cid uid with
  | none => (.rejected 404 "Chat not found or access denied.", coll)
  | some chat_data =>
    let r := generate_response source coll cid chat_data q commitOk
    (.streamed r.1, r.2)

/-- The `/api/chat` route (`src/app.py` lines 197-241).  Form fields are
`Option`s (`None` when absent); Python's falsiness checks make the empty
string behave like absence, and a literal `'null'` chat id also selects
the new-chat branch.  `freshId` stands for the `ObjectId` Mongo assigns
to an inserted document and `timestamp` for `datetime.now()`. -/
def handle_chat (coll : ChatsCollection) (user_id chat_id question : Option String)
    (pdf_file : Option (Option String)) (freshId : String) (timestamp : Nat)
    (source : TokenSource) (commitOk : Bool) : ChatResponse × ChatsCollection :=
  match user_id with
  | none => (.rejected 401 "User is not logged in.", coll)
  | some uid =>
    if uid = "" then (.rejected 401 "User is not logged in.", coll)
    else
      match question with
      | none => (.rejected 400 "Question is required.", coll)
      | some q =>
        if q = "" then (.rejected 400 "Question is required.", coll)
        else
          match chat_id with
          | none => handle_chat_new coll uid q pdf_file freshId timestamp source commitOk
          | some cid =>
            if cid = "" ∨ cid = "null" then
              handle_chat_new coll uid q pdf_file freshId timestamp source commitOk
            else
              handle_chat_existing coll uid q cid source commitOk

/-! ## Derived characterizations and concrete fixtures used by the theorems -/

/-- Payload of a text chunk: the part after the leading `'data: '` and
before the trailing newlines. -/
def sseTextBody (t : String) : List Char :=
  textHeader ++ (pyEscape t.data ++ ['"', '\x7d'])

/-- Payload of an error chunk. -/
def sseErrBody (e : String) : List Char :=
  ("\x7b\"error\": \"").data ++ (pyEscape e.data ++ ['"', '\x7d'])

/-- A fragment whose serialized chunk survives the accumulator's
`split('data: ')[1]` / `json.loads` round-trip: its JSON payload contains
no internal occurrence of `'data: '`.  A fragment containing `'data: '`
is forwarded to the caller but dropped from `full_bot_response`, because
the split truncates its payload and `json.loads` then raises. -/
def cleanFragment (t : String) : Bool :=
  !hasDataSep (sseTextBody t ++ ['\n', '\n'])

/-- Closed form of the accumulator's final value for a stream outcome:
the concatenation, in order, of the non-empty fragments that survive the
round-trip.  Proved equal to `foldl accumStep` over the yielded chunks. -/
def streamAccumText (o : StreamOutcome) : String :=
  String.join ((o.chunks.filter (fun t => t ≠ "")).filter cleanFragment)

/-- Metadata agreement between a stored document before and after an
operation: key and every field except `history` coincide. -/
def sameMeta (p q : String × ChatDoc) : Prop :=
  q.1 = p.1 ∧ q.2.user_id = p.2.user_id ∧ q.2.title = p.2.title ∧
  q.2.timestamp = p.2.timestamp ∧ q.2.pdf_text = p.2.pdf_text

/-- One follow-up request against an existing session: the submitted
question and the token source behaviour for that request. -/
structure TurnRequest where
  question : String
  source : TokenSource

/-- Run a sequence of requests against one session sequentially, each a
full `handle_chat` cycle with a successful commit. -/
def runChats (uid cid : String) : ChatsCollection → List TurnRequest → ChatsCollection
  | coll, [] => coll
  | coll, r :: rs =>
    runChats uid cid
      (handle_chat coll (some uid) (some cid) (some r.question) none "" 0 r.source true).2 rs

/-- Fixture document for concrete runs. -/
def demoDoc : ChatDoc :=
  { user_id := "u1", title := "t", timestamp := 0, pdf_text := "doc text", history := [] }

/-- Fixture collection holding `demoDoc` under id `"c1"`. -/
def demoColl : ChatsCollection := [("c1", demoDoc)]

/-- Token source ignoring its prompt and producing a fixed outcome. -/
def constSource (chunks : List String) (err : Option String) : TokenSource :=
  fun _ => ⟨chunks, err⟩

/-! # Theorems

Round-trip properties of the escape/parse pair, characterization of the
accumulator, frame properties of the store operations, and the claims. -/

theorem char_valid_cases (c : Char) :
    c.toNat < 0xd800 ∨ (0xdfff < c.toNat ∧ c.toNat < 0x110000) := by
  have h := c.valid
  unfold UInt32.isValidChar at h
  unfold Nat.isValidChar at h
  exact h

theorem hexVal_hexDigitChar (n : Nat) (h : n < 16) : hexVal (hexDigitChar n) = some n := by
  interval_cases n <;> decide

theorem hex4Val_toHex4 (n : Nat) (h : n < 0x10000) :
    hex4Val (hexDigitChar (n / 4096 % 16)) (hexDigitChar (n / 256 % 16))
      (hexDigitChar (n / 16 % 16)) (hexDigitChar (n % 16)) = some n := by
  simp only [hex4Val, hexVal_hexDigitChar (n / 4096 % 16) (by omega),
    hexVal_hexDigitChar (n / 256 % 16) (by omega),
    hexVal_hexDigitChar (n / 16 % 16) (by omega),
    hexVal_hexDigitChar (n % 16) (by omega), Option.some.injEq]
  omega

theorem parseUEsc_bmp (n : Nat) (r : List Char) (hn : n < 0x10000)
    (hlow : ¬(0xd800 ≤ n ∧ n ≤ 0xdbff)) (hhigh : ¬(0xdc00 ≤ n ∧ n ≤ 0xdfff)) :
    parseUEsc (toHex4 n ++ r) = some (Char.ofNat n, r) := by
  simp only [toHex4, List.cons_append, List.nil_append, parseUEsc.eq_1,
    hex4Val_toHex4 n hn, if_neg hlow, if_neg hhigh]

theorem parseUEsc_pair (n m : Nat) (r : List Char) (hn : n < 0x10000) (hm : m < 0x10000)
    (hns : 0xd800 ≤ n ∧ n ≤ 0xdbff) (hms : 0xdc00 ≤ m ∧ m ≤ 0xdfff) :
    parseUEsc (toHex4 n ++ ('\\' :: 'u' :: (toHex4 m ++ r))) =
      some (Char.ofNat (0x10000 + (n - 0xd800) * 0x400 + (m - 0xdc00)), r) := by
  simp only [toHex4, List.cons_append, List.nil_append, parseUEsc.eq_1,
    hex4Val_toHex4 n hn, if_pos hns, hex4Val_toHex4 m hm, if_pos hms]
  simp

theorem parseStringCharsF_escape (fuel : Nat) (c : Char) (r : List Char) :
    parseStringCharsF (fuel + 1) (pyEscapeChar c ++ r) =
      (parseStringCharsF fuel r).map (fun p => (c :: p.1, p.2)) := by
  have hval := char_valid_cases c
  by_cases h1 : c = '"'
  · subst h1; simp [pyEscapeChar, parseStringCharsF, parseEsc]
  by_cases h2 : c = '\\'
  · subst h2; simp [pyEscapeChar, parseStringCharsF, parseEsc]
  by_cases h3 : c = '\n'
  · subst h3; simp [pyEscapeChar, parseStringCharsF, parseEsc]
  by_cases h4 : c = '\r'
  · subst h4; simp [pyEscapeChar, parseStringCharsF, parseEsc]
  by_cases h5 : c = '\t'
  · subst h5; simp [pyEscapeChar, parseStringCharsF, parseEsc]
  by_cases h6 : c = '\x08'
  · subst h6; simp [pyEscapeChar, parseStringCharsF, parseEsc]
  by_cases h7 : c = '\x0c'
  · subst h7; simp [pyEscapeChar, parseStringCharsF, parseEsc]
  by_cases h8 : c.toNat < 0x20
  · have hlt : c.toNat < 0x10000 := by omega
    simp only [pyEscapeChar, if_neg h1, if_neg h2, if_neg h3, if_neg h4, if_neg h5,
      if_neg h6, if_neg h7, if_pos h8, List.cons_append]
    simp [parseStringCharsF, parseEsc,
      parseUEsc_bmp c.toNat r hlt (by omega) (by omega), Char.ofNat_toNat]
  by_cases h9 : c.toNat ≤ 0x7e
  · simp only [pyEscapeChar, if_neg h1, if_neg h2, if_neg h3, if_neg h4, if_neg h5,
      if_neg h6, if_neg h7, if_neg h8, if_pos h9, List.singleton_append]
    rw [parseStringCharsF.eq_3, if_neg h1, if_neg h2]
  by_cases h10 : c.toNat ≤ 0xffff
  · have hlt : c.toNat < 0x10000 := by omega
    simp only [pyEscapeChar, if_neg h1, if_neg h2, if_neg h3, if_neg h4, if_neg h5,
      if_neg h6, if_neg h7, if_neg h8, if_neg h9, if_pos h10, List.cons_append]
    simp [parseStringCharsF, parseEsc,
      parseUEsc_bmp c.toNat r hlt (by rcases hval with hv | hv <;> omega)
        (by rcases hval with hv | hv <;> omega), Char.ofNat_toNat]
  · have h110 : c.toNat < 0x110000 := by rcases hval with hv | hv <;> omega
    simp only [pyEscapeChar, if_neg h1, if_neg h2, if_neg h3, if_neg h4, if_neg h5,
      if_neg h6, if_neg h7, if_neg h8, if_neg h9, if_neg h10, List.cons_append,
      List.append_assoc]
    rw [parseStringCharsF.eq_3, if_neg (by decide : ¬('\\' : Char) = '"'),
      if_pos (rfl : ('\\' : Char) = '\\')]
    rw [parseEsc.eq_2]
    rw [if_neg (by decide : ¬('u' : Char) = '"'), if_neg (by decide : ¬('u' : Char) = '\\'),
      if_neg (by decide : ¬('u' : Char) = '/'), if_neg (by decide : ¬('u' : Char) = 'b'),
      if_neg (by decide : ¬('u' : Char) = 'f'), if_neg (by decide : ¬('u' : Char) = 'n'),
      if_neg (by decide : ¬('u' : Char) = 'r'), if_neg (by decide : ¬('u' : Char) = 't'),
      if_pos (rfl : ('u' : Char) = 'u')]
    rw [parseUEsc_pair (0xd800 + (c.toNat - 0x10000) / 0x400)
        (0xdc00 + (c.toNat - 0x10000) % 0x400) r (by omega) (by omega)
        (by omega) (by omega)]
    have hc : 0x10000 + (0xd800 + (c.toNat - 0x10000) / 0x400 - 0xd800) * 0x400 +
        (0xdc00 + (c.toNat - 0x10000) % 0x400 - 0xdc00) = c.toNat := by omega
    rw [hc, Char.ofNat_toNat]

theorem pyEscapeChar_length_pos (c : Char) : 0 < (pyEscapeChar c).length := by
  unfold pyEscapeChar
  repeat' split
  all_goals simp [toHex4]

theorem pyEscape_length_ge (cs : List Char) : cs.length ≤ (pyEscape cs).length := by
  induction cs with
  | nil => simp [pyEscape]
  | cons c cs ih =>
    have := pyEscapeChar_length_pos c
    simp only [pyEscape, List.flatMap_cons, List.length_append, List.length_cons]
    simp only [pyEscape] at ih
    omega

theorem parseStringCharsF_nil : ∀ fuel : Nat, parseStringCharsF fuel [] = none
  | 0 => rfl
  | _ + 1 => rfl

theorem parseStringCharsF_closed (cs : List Char) : ∀ (fuel : Nat) (r : List Char),
    cs.length < fuel →
    parseStringCharsF fuel (pyEscape cs ++ ('"' :: r)) = some (cs, r) := by
  induction cs with
  | nil =>
    intro fuel r h
    match fuel, h with
    | fuel + 1, _ => simp [pyEscape, parseStringCharsF]
  | cons c cs ih =>
    intro fuel r h
    match fuel, h with
    | fuel + 1, h =>
      have : pyEscape (c :: cs) ++ ('"' :: r) =
          pyEscapeChar c ++ (pyEscape cs ++ ('"' :: r)) := by
        simp [pyEscape, List.flatMap_cons, List.append_assoc]
      rw [this, parseStringCharsF_escape, ih fuel r (by simpa using Nat.lt_of_succ_lt_succ h)]
      rfl

theorem parseStringChars_closed (cs : List Char) (r : List Char) :
    parseStringChars (pyEscape cs ++ ('"' :: r)) = some (cs, r) := by
  have h1 := pyEscape_length_ge cs
  apply parseStringCharsF_closed
  simp only [List.length_append, List.length_cons]
  omega

theorem parseUEsc_short (l : List Char) (h : l.length < 4) : parseUEsc l = none := by
  match l, h with
  | [], _ => rfl
  | [a], _ => rfl
  | [a, b], _ => rfl
  | [a, b, c], _ => rfl

theorem parseUEsc_hi_stuck (n : Nat) (partials : List Char) (hn : n < 0x10000)
    (hs : 0xd800 ≤ n ∧ n ≤ 0xdbff) (hp : partials.length < 6) :
    parseUEsc (toHex4 n ++ partials) = none := by
  simp only [toHex4, List.cons_append, List.nil_append, parseUEsc.eq_1,
    hex4Val_toHex4 n hn, if_pos hs]
  match partials, hp with
  | [], _ => rfl
  | [s1], _ => rfl
  | [s1, s2], _ => rfl
  | [s1, s2, a2], _ => rfl
  | [s1, s2, a2, b2], _ => rfl
  | [s1, s2, a2, b2, c2], _ => rfl

theorem parseEsc_u (l : List Char) : parseEsc ('u' :: l) = parseUEsc l := by
  simp [parseEsc]

theorem parseStringCharsF_backslash_none (l : List Char) (h : parseEsc l = none) :
    ∀ fuel : Nat, parseStringCharsF fuel ('\\' :: l) = none
  | 0 => rfl
  | fuel + 1 => by
    rw [parseStringCharsF.eq_3, if_neg (by decide : ¬('\\' : Char) = '"'),
      if_pos (rfl : ('\\' : Char) = '\\'), h]

theorem toHex4_length (n : Nat) : (toHex4 n).length = 4 := by simp [toHex4]

theorem parse_esc_tail_split (tail w u : List Char) (hu : u ≠ [])
    (h : w ++ u = '\\' :: tail)
    (htail : ∀ w' u', u' ≠ [] → w' ++ u' = tail → parseEsc w' = none) :
    ∀ fuel, parseStringCharsF fuel w = none := by
  intro fuel
  rcases w with _ | ⟨w0, w'⟩
  · exact parseStringCharsF_nil fuel
  · simp only [List.cons_append, List.cons.injEq] at h
    obtain ⟨rfl, h⟩ := h
    exact parseStringCharsF_backslash_none w' (htail w' u hu h) fuel

theorem parseEsc_single_split (x : Char) (w' u' : List Char) (hu : u' ≠ [])
    (h : w' ++ u' = [x]) : parseEsc w' = none := by
  rcases w' with _ | ⟨y, w''⟩
  · rfl
  · simp only [List.cons_append, List.cons.injEq] at h
    exact absurd (List.append_eq_nil.mp h.2).2 hu

theorem parseEsc_u_short_split (dtail : List Char) (hd : dtail.length = 4)
    (w' u' : List Char) (hu : u' ≠ [])
    (h : w' ++ u' = 'u' :: dtail) : parseEsc w' = none := by
  rcases w' with _ | ⟨y, w''⟩
  · rfl
  · simp only [List.cons_append, List.cons.injEq] at h
    obtain ⟨rfl, h⟩ := h
    rw [parseEsc_u]
    apply parseUEsc_short
    have hl := congrArg List.length h
    have hul : 0 < u'.length := List.length_pos.mpr hu
    simp only [List.length_append] at hl
    omega

theorem parseEsc_u_pair_split (n : Nat) (hn : n < 0x10000) (hs : 0xd800 ≤ n ∧ n ≤ 0xdbff)
    (B : List Char) (hB : B.length = 6)
    (w' u' : List Char) (hu : u' ≠ [])
    (h : w' ++ u' = 'u' :: (toHex4 n ++ B)) : parseEsc w' = none := by
  rcases w' with _ | ⟨y, w''⟩
  · rfl
  · simp only [List.cons_append, List.cons.injEq] at h
    obtain ⟨rfl, h⟩ := h
    rw [parseEsc_u]
    have hul : 0 < u'.length := List.length_pos.mpr hu
    rcases List.append_eq_append_iff.mp h.symm with ⟨a, ha1, ha2⟩ | ⟨a, ha1, ha2⟩
    · -- w'' = toHex4 n ++ a with a ++ u' = B
      subst ha1
      apply parseUEsc_hi_stuck n a hn hs
      have hl := congrArg List.length ha2
      simp only [List.length_append] at hl
      omega
    · -- toHex4 n = w'' ++ a
      by_cases ha : a = []
      · subst ha
        simp only [List.append_nil] at ha1
        rw [← ha1]
        have := parseUEsc_hi_stuck n [] hn hs (by simp)
        simpa using this
      · apply parseUEsc_short
        have hl := congrArg List.length ha1
        have hal : 0 < a.length := List.length_pos.mpr ha
        simp only [List.length_append, toHex4_length] at hl
        omega

theorem parse_escChar_split (c : Char) (w u : List Char) (h : w ++ u = pyEscapeChar c) :
    ∀ fuel : Nat, parseStringCharsF fuel w = none := by
  intro fuel
  by_cases hu : u = []
  · subst hu
    simp only [List.append_nil] at h
    subst h
    match fuel with
    | 0 => rfl
    | fuel + 1 =>
      have he := parseStringCharsF_escape fuel c []
      simp only [List.append_nil] at he
      rw [he, parseStringCharsF_nil]
      rfl
  · have hval := char_valid_cases c
    by_cases h1 : c = '"'
    · subst h1
      rw [show pyEscapeChar '"' = ['\\', '"'] from by decide] at h
      exact parse_esc_tail_split ['"'] w u hu h (parseEsc_single_split '"') fuel
    by_cases h2 : c = '\\'
    · subst h2
      rw [show pyEscapeChar '\\' = ['\\', '\\'] from by decide] at h
      exact parse_esc_tail_split ['\\'] w u hu h (parseEsc_single_split '\\') fuel
    by_cases h3 : c = '\n'
    · subst h3
      rw [show pyEscapeChar '\n' = ['\\', 'n'] from by decide] at h
      exact parse_esc_tail_split ['n'] w u hu h (parseEsc_single_split 'n') fuel
    by_cases h4 : c = '\r'
    · subst h4
      rw [show pyEscapeChar '\r' = ['\\', 'r'] from by decide] at h
      exact parse_esc_tail_split ['r'] w u hu h (parseEsc_single_split 'r') fuel
    by_cases h5 : c = '\t'
    · subst h5
      rw [show pyEscapeChar '\t' = ['\\', 't'] from by decide] at h
      exact parse_esc_tail_split ['t'] w u hu h (parseEsc_single_split 't') fuel
    by_cases h6 : c = '\x08'
    · subst h6
      rw [show pyEscapeChar '\x08' = ['\\', 'b'] from by decide] at h
      exact parse_esc_tail_split ['b'] w u hu h (parseEsc_single_split 'b') fuel
    by_cases h7 : c = '\x0c'
    · subst h7
      rw [show pyEscapeChar '\x0c' = ['\\', 'f'] from by decide] at h
      exact parse_esc_tail_split ['f'] w u hu h (parseEsc_single_split 'f') fuel
    by_cases h8 : c.toNat < 0x20
    · have hesc : pyEscapeChar c = '\\' :: ('u' :: toHex4 c.toNat) := by
        simp only [pyEscapeChar, if_neg h1, if_neg h2, if_neg h3, if_neg h4, if_neg h5,
          if_neg h6, if_neg h7, if_pos h8]
      rw [hesc] at h
      exact parse_esc_tail_split _ w u hu h
        (parseEsc_u_short_split (toHex4 c.toNat) (toHex4_length _)) fuel
    by_cases h9 : c.toNat ≤ 0x7e
    · have hesc : pyEscapeChar c = [c] := by
        simp only [pyEscapeChar, if_neg h1, if_neg h2, if_neg h3, if_neg h4, if_neg h5,
          if_neg h6, if_neg h7, if_neg h8, if_pos h9]
      rw [hesc] at h
      rcases w with _ | ⟨w0, w'⟩
      · exact parseStringCharsF_nil fuel
      · simp only [List.cons_append, List.cons.injEq] at h
        exact absurd (List.append_eq_nil.mp h.2).2 hu
    by_cases h10 : c.toNat ≤ 0xffff
    · have hesc : pyEscapeChar c = '\\' :: ('u' :: toHex4 c.toNat) := by
        simp only [pyEscapeChar, if_neg h1, if_neg h2, if_neg h3, if_neg h4, if_neg h5,
          if_neg h6, if_neg h7, if_neg h8, if_neg h9, if_pos h10]
      rw [hesc] at h
      exact parse_esc_tail_split _ w u hu h
        (parseEsc_u_short_split (toHex4 c.toNat) (toHex4_length _)) fuel
    · have h110 : c.toNat < 0x110000 := by rcases hval with hv | hv <;> omega
      have hesc : pyEscapeChar c = '\\' :: ('u' ::
          (toHex4 (0xd800 + (c.toNat - 0x10000) / 0x400) ++
            ('\\' :: 'u' :: toHex4 (0xdc00 + (c.toNat - 0x10000) % 0x400)))) := by
        simp only [pyEscapeChar, if_neg h1, if_neg h2, if_neg h3, if_neg h4, if_neg h5,
          if_neg h6, if_neg h7, if_neg h8, if_neg h9, if_neg h10, List.cons_append]
      rw [hesc] at h
      exact parse_esc_tail_split _ w u hu h
        (parseEsc_u_pair_split (0xd800 + (c.toNat - 0x10000) / 0x400) (by omega) (by omega)
          ('\\' :: 'u' :: toHex4 (0xdc00 + (c.toNat - 0x10000) % 0x400))
          (by simp [toHex4_length]) ) fuel

theorem parseStringCharsF_pyEscape_split : ∀ (cs : List Char) (fuel : Nat) (w u : List Char),
    w ++ u = pyEscape cs → parseStringCharsF fuel w = none := by
  intro cs
  induction cs with
  | nil =>
    intro fuel w u h
    simp only [pyEscape, List.flatMap_nil] at h
    obtain ⟨rfl, rfl⟩ := List.append_eq_nil.mp h
    exact parseStringCharsF_nil fuel
  | cons c cs ih =>
    intro fuel w u h
    rw [show pyEscape (c :: cs) = pyEscapeChar c ++ pyEscape cs from by
      simp [pyEscape]] at h
    rcases List.append_eq_append_iff.mp h with ⟨a, ha1, ha2⟩ | ⟨a, ha1, ha2⟩
    · exact parse_escChar_split c w a ha1.symm fuel
    · subst ha1
      match fuel with
      | 0 => rfl
      | fuel + 1 =>
        rw [parseStringCharsF_escape, ih fuel a u ha2.symm]
        rfl

theorem parseStringChars_of_split (cs w u : List Char) (h : w ++ u = pyEscape cs) :
    parseStringChars w = none :=
  parseStringCharsF_pyEscape_split cs w.length w u h

theorem dropLiteral_self (xs : List Char) : ∀ r : List Char, dropLiteral xs (xs ++ r) = some r := by
  induction xs with
  | nil => intro r; rfl
  | cons x xs ih => intro r; simp [dropLiteral, ih]

theorem dropLiteral_short : ∀ (w : List Char) (xs u : List Char), w ++ u = xs → u ≠ [] →
    dropLiteral xs w = none := by
  intro w
  induction w with
  | nil =>
    intro xs u h hu
    rcases xs with _ | ⟨x, xs'⟩
    · simp at h; exact absurd h hu
    · rfl
  | cons w0 w' ih =>
    intro xs u h hu
    rcases xs with _ | ⟨x, xs'⟩
    · simp at h
    · simp only [List.cons_append, List.cons.injEq] at h
      obtain ⟨rfl, h⟩ := h
      simp only [dropLiteral, if_pos rfl]
      exact ih xs' u h hu

theorem parseStringChars_nil : parseStringChars [] = none := rfl

theorem parseTextPiece_full (t : String) (ws : List Char) (hws : ws.all isPyJsonWs = true) :
    parseTextPiece (sseTextBody t ++ ws) = some t := by
  unfold parseTextPiece sseTextBody
  rw [List.append_assoc]
  have hshape : (pyEscape t.data ++ ['"', '\x7d']) ++ ws =
      pyEscape t.data ++ ('"' :: ('\x7d' :: ws)) := by simp
  simp [dropLiteral_self, hshape, parseStringChars_closed, hws]

theorem parseTextPiece_take (t : String) (w u : List Char) (h : w ++ u = sseTextBody t)
    (hu : u ≠ []) : parseTextPiece w = none := by
  unfold sseTextBody at h
  rcases List.append_eq_append_iff.mp h with ⟨a, ha1, ha2⟩ | ⟨a, ha1, ha2⟩
  · by_cases ha : a = []
    · subst ha
      obtain rfl : w = textHeader := by simpa using ha1.symm
      unfold parseTextPiece
      have hd := dropLiteral_self textHeader []
      simp only [List.append_nil] at hd
      simp [hd, parseStringChars_nil]
    · unfold parseTextPiece
      simp [dropLiteral_short w textHeader a ha1.symm ha]
  · subst ha1
    unfold parseTextPiece
    rcases List.append_eq_append_iff.mp ha2.symm with ⟨b, hb1, hb2⟩ | ⟨b, hb1, hb2⟩
    · -- a is a prefix of the escaped body
      simp [dropLiteral_self, parseStringChars_of_split t.data a b hb1.symm]
    · -- a = pyEscape ++ b with b ++ u a split of ['"', '\x7d']
      subst hb1
      rcases b with _ | ⟨b0, b'⟩
      · simp [dropLiteral_self,
          parseStringChars_of_split t.data (pyEscape t.data) [] (by simp)]
      · simp only [List.cons_append, List.cons.injEq] at hb2
        obtain ⟨rfl, hb2⟩ := hb2
        rcases b' with _ | ⟨b1, b''⟩
        · have hc := parseStringChars_closed t.data []
          simp [dropLiteral_self, hc]
        · simp only [List.cons_append, List.cons.injEq] at hb2
          obtain ⟨rfl, hb2⟩ := hb2
          exact absurd (List.append_eq_nil.mp hb2.symm).2 hu

theorem string_mk_data (l : List Char) : (String.mk l).data = l := rfl

theorem sseTextChunk_data (t : String) :
    (sseTextChunk t).data =
      'd' :: 'a' :: 't' :: 'a' :: ':' :: ' ' :: (sseTextBody t ++ ['\n', '\n']) := by
  have e1 : ("data: \x7b\"text\": ").data =
      ['d', 'a', 't', 'a', ':', ' ', '\x7b', '"', 't', 'e', 'x', 't', '"', ':', ' '] := rfl
  have e2 : ("\x7d\n\n").data = ['\x7d', '\n', '\n'] := rfl
  have e3 : ("\"").data = ['"'] := rfl
  have e5 : textHeader = ['\x7b', '"', 't', 'e', 'x', 't', '"', ':', ' ', '"'] := rfl
  simp [sseTextChunk, pyJsonStr, String.data_append, string_mk_data, sseTextBody,
    e1, e2, e3, e5]

theorem sseErrorChunk_data (e : String) :
    (sseErrorChunk e).data =
      'd' :: 'a' :: 't' :: 'a' :: ':' :: ' ' :: (sseErrBody e ++ ['\n', '\n']) := by
  have e1 : ("data: \x7b\"error\": ").data =
      ['d', 'a', 't', 'a', ':', ' ', '\x7b', '"', 'e', 'r', 'r', 'o', 'r', '"', ':', ' '] := rfl
  have e2 : ("\x7d\n\n").data = ['\x7d', '\n', '\n'] := rfl
  have e3 : ("\"").data = ['"'] := rfl
  have e6 : ("\x7b\"error\": \"").data =
      ['\x7b', '"', 'e', 'r', 'r', 'o', 'r', '"', ':', ' ', '"'] := rfl
  simp [sseErrorChunk, pyJsonStr, String.data_append, string_mk_data, sseErrBody,
    e1, e2, e3, e6]

theorem pySplitData_noocc : ∀ l : List Char, hasDataSep l = false → pySplitData l = [l] := by
  intro l
  induction l using hasDataSep.induct with
  | case1 rest =>
    intro h
    rw [hasDataSep.eq_1] at h
    cases h
  | case2 c rest h0 ih =>
    intro h
    rw [hasDataSep.eq_2 c rest h0] at h
    rw [pySplitData.eq_2 c rest h0, ih h]
  | case3 =>
    intro _
    rfl

theorem pySplitData_occ : ∀ l : List Char, hasDataSep l = true →
    ∃ w u ps, l = w ++ ('d' :: 'a' :: 't' :: 'a' :: ':' :: ' ' :: u) ∧
      pySplitData l = w :: ps := by
  intro l
  induction l using hasDataSep.induct with
  | case1 rest =>
    intro _
    exact ⟨[], rest, pySplitData rest, rfl, by rw [pySplitData.eq_1]⟩
  | case2 c rest h0 ih =>
    intro h
    rw [hasDataSep.eq_2 c rest h0] at h
    obtain ⟨w, u, ps, hl, hsplit⟩ := ih h
    refine ⟨c :: w, u, ps, by simp [hl], ?_⟩
    rw [pySplitData.eq_2 c rest h0, hsplit]
  | case3 =>
    intro h
    cases h

theorem accumStep_text (acc : String) (t : String) :
    accumStep acc (sseTextChunk t) = if cleanFragment t then acc ++ t else acc := by
  unfold accumStep cleanFragment
  rw [sseTextChunk_data, pySplitData.eq_1]
  cases hocc : hasDataSep (sseTextBody t ++ ['\n', '\n']) with
  | false =>
    rw [pySplitData_noocc _ hocc]
    simp only [List.getElem?_cons_succ, List.getElem?_cons_zero]
    rw [parseTextPiece_full t ['\n', '\n'] (by decide)]
    simp
  | true =>
    obtain ⟨w, u, ps, hl, hsplit⟩ := pySplitData_occ _ hocc
    rw [hsplit]
    simp only [List.getElem?_cons_succ, List.getElem?_cons_zero]
    rcases List.append_eq_append_iff.mp hl with ⟨a, ha1, ha2⟩ | ⟨a, ha1, ha2⟩
    · have hla := congrArg List.length ha2
      simp at hla
      omega
    · have hane : a ≠ [] := by
        intro hae
        subst hae
        have hla := congrArg List.length ha2
        simp at hla
      rw [parseTextPiece_take t w a ha1.symm hane]
      simp

theorem parseTextPiece_errHead (w u R : List Char)
    (h : w ++ u = '\x7b' :: '"' :: 'e' :: R) : parseTextPiece w = none := by
  have e5 : textHeader = ['\x7b', '"', 't', 'e', 'x', 't', '"', ':', ' ', '"'] := rfl
  rcases w with _ | ⟨w0, w'⟩
  · simp [parseTextPiece, e5, dropLiteral]
  simp only [List.cons_append, List.cons.injEq] at h
  obtain ⟨rfl, h⟩ := h
  rcases w' with _ | ⟨w1, w''⟩
  · simp [parseTextPiece, e5, dropLiteral]
  simp only [List.cons_append, List.cons.injEq] at h
  obtain ⟨rfl, h⟩ := h
  rcases w'' with _ | ⟨w2, w'''⟩
  · simp [parseTextPiece, e5, dropLiteral]
  simp only [List.cons_append, List.cons.injEq] at h
  obtain ⟨rfl, h⟩ := h
  simp [parseTextPiece, e5, dropLiteral]

theorem sseErrBody_head (e : String) :
    ∃ R, sseErrBody e ++ ['\n', '\n'] = '\x7b' :: '"' :: 'e' :: R := by
  refine ⟨("rror\": \"").data ++ (pyEscape e.data ++ ['"', '\x7d']) ++ ['\n', '\n'], ?_⟩
  have e6 : ("\x7b\"error\": \"").data =
      '\x7b' :: '"' :: 'e' :: ("rror\": \"").data := rfl
  simp [sseErrBody, e6]

theorem accumStep_error (acc : String) (e : String) :
    accumStep acc (sseErrorChunk e) = acc := by
  unfold accumStep
  rw [sseErrorChunk_data, pySplitData.eq_1]
  obtain ⟨R, hR⟩ := sseErrBody_head e
  cases hocc : hasDataSep (sseErrBody e ++ ['\n', '\n']) with
  | false =>
    rw [pySplitData_noocc _ hocc]
    simp only [List.getElem?_cons_succ, List.getElem?_cons_zero]
    rw [parseTextPiece_errHead _ [] R (by simpa using hR)]
  | true =>
    obtain ⟨w, u, ps, hl, hsplit⟩ := pySplitData_occ _ hocc
    rw [hsplit]
    simp only [List.getElem?_cons_succ, List.getElem?_cons_zero]
    rw [parseTextPiece_errHead w ('d' :: 'a' :: 't' :: 'a' :: ':' :: ' ' :: u) R
      (by rw [← hl, hR])]

theorem string_foldl_append (l : List String) : ∀ a : String,
    l.foldl (· ++ ·) a = a ++ l.foldl (· ++ ·) "" := by
  induction l with
  | nil => intro a; simp
  | cons s l ih =>
    intro a
    simp only [List.foldl_cons]
    rw [ih (a ++ s), ih ("" ++ s)]
    simp [String.append_assoc]

theorem string_join_cons (s : String) (l : List String) :
    String.join (s :: l) = s ++ String.join l := by
  show (s :: l).foldl (· ++ ·) "" = s ++ l.foldl (· ++ ·) ""
  simp only [List.foldl_cons]
  rw [string_foldl_append l ("" ++ s)]
  simp

theorem string_join_nil : String.join [] = "" := rfl

theorem foldl_accumStep_texts : ∀ (ts : List String) (acc : String),
    (ts.map sseTextChunk).foldl accumStep acc = acc ++ String.join (ts.filter cleanFragment) := by
  intro ts
  induction ts with
  | nil => intro acc; simp [string_join_nil]
  | cons t ts ih =>
    intro acc
    simp only [List.map_cons, List.foldl_cons, accumStep_text]
    cases hc : cleanFragment t with
    | false =>
      rw [if_neg (by simp [hc])]
      rw [ih acc, List.filter_cons_of_neg (by simp [hc])]
    | true =>
      rw [if_pos (by simp [hc])]
      rw [ih (acc ++ t), List.filter_cons_of_pos (by simp [hc])]
      rw [string_join_cons]
      simp [String.append_assoc]

theorem foldl_accumStep_stream (source : TokenSource) (chat_history : List Turn)
    (user_question pdf_text : String) :
    (get_gemini_response_stream source chat_history user_question pdf_text).foldl accumStep "" =
      streamAccumText (source (gemini_messages chat_history user_question pdf_text)) := by
  unfold get_gemini_response_stream streamAccumText
  rw [List.foldl_append]
  rw [foldl_accumStep_texts]
  cases (source (gemini_messages chat_history user_question pdf_text)).err with
  | none => simp
  | some e => simp [accumStep_error]

theorem sseTextChunk_head (t : String) : ∃ R,
    (sseTextChunk t).data =
      'd' :: 'a' :: 't' :: 'a' :: ':' :: ' ' :: '\x7b' :: '"' :: 't' :: R := by
  refine ⟨('e' :: 'x' :: 't' :: '"' :: ':' :: ' ' :: '"' ::
    (pyEscape t.data ++ ['"', '\x7d'])) ++ ['\n', '\n'], ?_⟩
  rw [sseTextChunk_data]
  have e5 : textHeader = ['\x7b', '"', 't', 'e', 'x', 't', '"', ':', ' ', '"'] := rfl
  simp [sseTextBody, e5]

theorem sseErrorChunk_head (e : String) : ∃ R,
    (sseErrorChunk e).data =
      'd' :: 'a' :: 't' :: 'a' :: ':' :: ' ' :: '\x7b' :: '"' :: 'e' :: 'r' :: R := by
  refine ⟨('r' :: 'o' :: 'r' :: '"' :: ':' :: ' ' :: '"' ::
    (pyEscape e.data ++ ['"', '\x7d'])) ++ ['\n', '\n'], ?_⟩
  rw [sseErrorChunk_data]
  have e6 : ("\x7b\"error\": \"").data =
      ['\x7b', '"', 'e', 'r', 'r', 'o', 'r', '"', ':', ' ', '"'] := rfl
  simp [sseErrBody, e6]

theorem sseEndChunk_head (cid : String) : ∃ R,
    (sseEndChunk cid).data =
      'd' :: 'a' :: 't' :: 'a' :: ':' :: ' ' :: '\x7b' :: '"' :: 'e' :: 'n' :: R := by
  refine ⟨("d_of_stream\": true, \"chat_id\": ").data ++
    ('"' :: (pyEscape cid.data ++ ['"'])) ++ ['\x7d', '\n', '\n'], ?_⟩
  have e1 : ("data: \x7b\"end_of_stream\": true, \"chat_id\": ").data =
      ['d', 'a', 't', 'a', ':', ' ', '\x7b', '"', 'e', 'n'] ++
        ("d_of_stream\": true, \"chat_id\": ").data := rfl
  have e2 : ("\x7d\n\n").data = ['\x7d', '\n', '\n'] := rfl
  have e3 : ("\"").data = ['"'] := rfl
  simp [sseEndChunk, pyJsonStr, String.data_append, string_mk_data, e1, e2, e3]

theorem sseTextChunk_ne_endChunk (t cid : String) : sseTextChunk t ≠ sseEndChunk cid := by
  intro h
  obtain ⟨R1, h1⟩ := sseTextChunk_head t
  obtain ⟨R2, h2⟩ := sseEndChunk_head cid
  have hd := congrArg String.data h
  rw [h1, h2] at hd
  simp at hd

theorem sseErrorChunk_ne_endChunk (e cid : String) : sseErrorChunk e ≠ sseEndChunk cid := by
  intro h
  obtain ⟨R1, h1⟩ := sseErrorChunk_head e
  obtain ⟨R2, h2⟩ := sseEndChunk_head cid
  have hd := congrArg String.data h
  rw [h1, h2] at hd
  simp at hd

theorem mem_stream_shape (source : TokenSource) (chat_history : List Turn)
    (user_question pdf_text : String) (x : String)
    (hx : x ∈ get_gemini_response_stream source chat_history user_question pdf_text) :
    (∃ t, x = sseTextChunk t) ∨ ∃ e, x = sseErrorChunk e := by
  unfold get_gemini_response_stream at hx
  rcases List.mem_append.mp hx with hx | hx
  · obtain ⟨t, _, rfl⟩ := List.mem_map.mp hx
    exact Or.inl ⟨t, rfl⟩
  · cases he : (source (gemini_messages chat_history user_question pdf_text)).err with
    | none => rw [he] at hx; cases hx
    | some e =>
      rw [he] at hx
      simp only [List.mem_singleton] at hx
      exact Or.inr ⟨e, hx⟩

theorem stream_count_end (source : TokenSource) (chat_history : List Turn)
    (user_question pdf_text cid : String) :
    (get_gemini_response_stream source chat_history user_question pdf_text).count
      (sseEndChunk cid) = 0 := by
  rw [List.count_eq_zero]
  intro hmem
  rcases mem_stream_shape source chat_history user_question pdf_text _ hmem with ⟨t, ht⟩ | ⟨e, he⟩
  · exact sseTextChunk_ne_endChunk t cid ht.symm
  · exact sseErrorChunk_ne_endChunk e cid he.symm

theorem generate_response_commit (source : TokenSource) (coll : ChatsCollection)
    (chat_id : String) (chat_data : ChatDoc) (user_question : String) :
    generate_response source coll chat_id chat_data user_question true =
      (get_gemini_response_stream source chat_data.history user_question chat_data.pdf_text ++
          [sseEndChunk chat_id],
        update_one_push coll chat_id
          ⟨user_question,
            streamAccumText (source
              (gemini_messages chat_data.history user_question chat_data.pdf_text))⟩) := by
  simp [generate_response, foldl_accumStep_stream]

theorem generate_response_commit_fail (source : TokenSource) (coll : ChatsCollection)
    (chat_id : String) (chat_data : ChatDoc) (user_question : String) :
    generate_response source coll chat_id chat_data user_question false =
      (get_gemini_response_stream source chat_data.history user_question chat_data.pdf_text,
        coll) := by
  simp [generate_response]

theorem update_one_push_keys (coll : ChatsCollection) (cid : String) (t : Turn) :
    (update_one_push coll cid t).map Prod.fst = coll.map Prod.fst := by
  induction coll with
  | nil => rfl
  | cons p rest ih =>
    obtain ⟨i, d⟩ := p
    by_cases h : i = cid
    · simp [update_one_push, h]
    · simp [update_one_push, h, ih]

theorem update_one_push_frame (coll : ChatsCollection) (cid : String) (t : Turn) :
    List.Forall₂ (fun p q => sameMeta p q ∧
      (q.2.history = p.2.history ∨ (p.1 = cid ∧ q.2.history = p.2.history ++ [t])))
      coll (update_one_push coll cid t) := by
  induction coll with
  | nil => exact List.Forall₂.nil
  | cons p rest ih =>
    obtain ⟨i, d⟩ := p
    by_cases h : i = cid
    · rw [show update_one_push ((i, d) :: rest) cid t =
        (i, { d with history := d.history ++ [t] }) :: rest from by
          simp [update_one_push, h]]
      refine List.Forall₂.cons ⟨⟨rfl, rfl, rfl, rfl, rfl⟩, Or.inr ⟨h, rfl⟩⟩ ?_
      rw [List.forall₂_same]
      intro x _
      exact ⟨⟨rfl, rfl, rfl, rfl, rfl⟩, Or.inl rfl⟩
    · rw [show update_one_push ((i, d) :: rest) cid t =
        (i, d) :: update_one_push rest cid t from by simp [update_one_push, h]]
      exact List.Forall₂.cons ⟨⟨rfl, rfl, rfl, rfl, rfl⟩, Or.inl rfl⟩ ih

theorem find_one_none (coll : ChatsCollection) (cid uid : String)
    (h : ∀ d, (cid, d) ∈ coll → d.user_id ≠ uid) : find_one coll cid uid = none := by
  induction coll with
  | nil => rfl
  | cons p rest ih =>
    obtain ⟨i, d⟩ := p
    rw [show find_one ((i, d) :: rest) cid uid =
      if i = cid ∧ d.user_id = uid then some d else find_one rest cid uid from rfl]
    rw [if_neg, ih]
    · intro d' hd'
      exact h d' (List.mem_cons_of_mem _ hd')
    · rintro ⟨rfl, hud⟩
      exact h d (List.mem_cons_self _ _) hud

theorem find_one_mem_keys : ∀ (coll : ChatsCollection) (cid uid : String) (d : ChatDoc),
    find_one coll cid uid = some d → cid ∈ coll.map Prod.fst := by
  intro coll
  induction coll with
  | nil => intro cid uid d h; cases h
  | cons p rest ih =>
    intro cid uid d h
    obtain ⟨i, dd⟩ := p
    rw [show find_one ((i, dd) :: rest) cid uid =
      if i = cid ∧ dd.user_id = uid then some dd else find_one rest cid uid from rfl] at h
    split at h
    · next hc => simp [hc.1]
    · simp only [List.map_cons, List.mem_cons]
      exact Or.inr (ih cid uid d h)

theorem find_one_update_push (coll : ChatsCollection) (cid uid : String) (t : Turn)
    (d : ChatDoc) (hn : (coll.map Prod.fst).Nodup)
    (hf : find_one coll cid uid = some d) :
    find_one (update_one_push coll cid t) cid uid =
      some { d with history := d.history ++ [t] } := by
  induction coll with
  | nil => cases hf
  | cons p rest ih =>
    obtain ⟨i, dd⟩ := p
    simp only [List.map_cons, List.nodup_cons] at hn
    rw [show find_one ((i, dd) :: rest) cid uid =
      if i = cid ∧ dd.user_id = uid then some dd else find_one rest cid uid from rfl] at hf
    split at hf
    · next hc =>
      injection hf with hdd
      subst hdd
      rw [show update_one_push ((i, dd) :: rest) cid t =
        (i, { dd with history := dd.history ++ [t] }) :: rest from by
          simp [update_one_push, hc.1]]
      rw [show find_one ((i, { dd with history := dd.history ++ [t] }) :: rest) cid uid =
        if i = cid ∧ ({ dd with history := dd.history ++ [t] } : ChatDoc).user_id = uid then
          some { dd with history := dd.history ++ [t] }
        else find_one rest cid uid from rfl]
      rw [if_pos ⟨hc.1, hc.2⟩]
    · next hc =>
      by_cases hi : i = cid
      · subst hi
        exact absurd (find_one_mem_keys rest i uid d hf) hn.1
      · rw [show update_one_push ((i, dd) :: rest) cid t =
          (i, dd) :: update_one_push rest cid t from by simp [update_one_push, hi]]
        rw [show find_one ((i, dd) :: update_one_push rest cid t) cid uid =
          if i = cid ∧ dd.user_id = uid then some dd
          else find_one (update_one_push rest cid t) cid uid from rfl]
        rw [if_neg (by rintro ⟨rfl, _⟩; exact hi rfl)]
        exact ih hn.2 hf

theorem update_one_push_append_fresh (coll : ChatsCollection) (fid : String) (d : ChatDoc)
    (t : Turn) (h : fid ∉ coll.map Prod.fst) :
    update_one_push (coll ++ [(fid, d)]) fid t =
      coll ++ [(fid, { d with history := d.history ++ [t] })] := by
  induction coll with
  | nil => simp [update_one_push]
  | cons p rest ih =>
    obtain ⟨i, dd⟩ := p
    simp only [List.map_cons, List.mem_cons] at h
    push_neg at h
    rw [List.cons_append,
      show update_one_push ((i, dd) :: (rest ++ [(fid, d)])) fid t =
        (i, dd) :: update_one_push (rest ++ [(fid, d)]) fid t from by
          simp [update_one_push, Ne.symm h.1]]
    rw [ih h.2, List.cons_append]

theorem handle_chat_existing_run (coll : ChatsCollection) (uid q cid : String)
    (pdf_file : Option (Option String)) (freshId : String) (timestamp : Nat)
    (source : TokenSource) (commitOk : Bool)
    (hu : uid ≠ "") (hq : q ≠ "") (hc1 : cid ≠ "") (hc2 : cid ≠ "null") :
    handle_chat coll (some uid) (some cid) (some q) pdf_file freshId timestamp source commitOk =
      handle_chat_existing coll uid q cid source commitOk := by
  simp only [handle_chat]
  rw [if_neg hu, if_neg hq, if_neg (by simp [hc1, hc2])]

theorem handle_chat_new_run (coll : ChatsCollection) (uid q : String)
    (chat_id : Option String) (pdf_file : Option (Option String)) (freshId : String)
    (timestamp : Nat) (source : TokenSource) (commitOk : Bool)
    (hu : uid ≠ "") (hq : q ≠ "")
    (hcid : chat_id = none ∨ chat_id = some "" ∨ chat_id = some "null") :
    handle_chat coll (some uid) chat_id (some q) pdf_file freshId timestamp source commitOk =
      handle_chat_new coll uid q pdf_file freshId timestamp source commitOk := by
  rcases hcid with rfl | rfl | rfl <;>
    (simp only [handle_chat]; rw [if_neg hu, if_neg hq]) <;> try simp

theorem foldl_messages_flatMap : ∀ (l : List Turn) (init : List Message),
    l.foldl (fun ms entry =>
        ms ++ [⟨"user", [entry.user]⟩, ⟨"model", [entry.bot_markdown]⟩]) init =
      init ++ l.flatMap (fun e => [⟨"user", [e.user]⟩, ⟨"model", [e.bot_markdown]⟩]) := by
  intro l
  induction l with
  | nil => intro init; simp
  | cons a l ih =>
    intro init
    simp only [List.foldl_cons, List.flatMap_cons, ih, List.append_assoc]

theorem flatMap_two_length {α β : Type} (f g : α → β) (l : List α) :
    (l.flatMap fun e => [f e, g e]).length = 2 * l.length := by
  induction l with
  | nil => rfl
  | cons a l ih => simp [ih]; omega

theorem gemini_messages_eq (chat_history : List Turn) (user_question pdf_text : String) :
    gemini_messages chat_history user_question pdf_text =
      ⟨"user", ["DOCUMENT TEXT:\n---\n" ++ pdf_text ++ "\n---"]⟩ ::
        (chat_history.flatMap
            (fun e => [⟨"user", [e.user]⟩, ⟨"model", [e.bot_markdown]⟩]) ++
          [⟨"user", [user_question]⟩]) := by
  simp only [gemini_messages]
  rw [foldl_messages_flatMap chat_history
    [⟨"user", ["DOCUMENT TEXT:\n---\n" ++ pdf_text ++ "\n---"]⟩]]
  simp

/-! # Claims -/

/-- C5: for every document text, history and new question, the assembled
prompt is the framing message carrying the document text, then for each
prior turn in original order a user message with its `user` text followed
by a model message with its recorded `bot_markdown` verbatim, then one
final user message with the new question — exactly `2·|history| + 2`
messages. -/
theorem C5_prompt_assembly (document_text user_question : String) (history : List Turn) :
    gemini_messages history user_question document_text =
      ⟨"user", ["DOCUMENT TEXT:\n---\n" ++ document_text ++ "\n---"]⟩ ::
        (history.flatMap (fun e => [⟨"user", [e.user]⟩, ⟨"model", [e.bot_markdown]⟩]) ++
          [⟨"user", [user_question]⟩]) ∧
    (gemini_messages history user_question document_text).length =
      2 * history.length + 2 := by
  refine ⟨gemini_messages_eq history user_question document_text, ?_⟩
  rw [gemini_messages_eq]
  simp only [List.length_cons, List.length_append,
    flatMap_two_length (fun e : Turn => (⟨"user", [e.user]⟩ : Message))
      (fun e : Turn => (⟨"model", [e.bot_markdown]⟩ : Message)) history]
  simp
  try omega

/-- C4: a request naming a session id that is absent from the store, or
whose document is owned by a different principal, is rejected with the
404 not-found/denied response before any stream is opened, and the
collection is unchanged. -/
theorem C4_foreign_session_rejected (coll : ChatsCollection) (uid q cid fid : String)
    (ts : Nat) (pdf_file : Option (Option String)) (source : TokenSource) (commitOk : Bool)
    (hu : uid ≠ "") (hq : q ≠ "") (hc1 : cid ≠ "") (hc2 : cid ≠ "null")
    (habs : ∀ d : ChatDoc, (cid, d) ∈ coll → d.user_id ≠ uid) :
    handle_chat coll (some uid) (some cid) (some q) pdf_file fid ts source commitOk =
      (.rejected 404 "Chat not found or access denied.", coll) := by
  rw [handle_chat_existing_run coll uid q cid pdf_file fid ts source commitOk hu hq hc1 hc2]
  unfold handle_chat_existing
  rw [find_one_none coll cid uid habs]

/-- Witness for C4 at a concrete store: user `u2` asking for `u1`'s chat. -/
theorem C4_foreign_session_rejected_witness :
    handle_chat demoColl (some "u2") (some "c1") (some "hi") none "f" 0
        (constSource ["A"] none) true =
      (.rejected 404 "Chat not found or access denied.", demoColl) := by
  exact C4_foreign_session_rejected demoColl "u2" "hi" "c1" "f" 0 none
    (constSource ["A"] none) true (by decide) (by decide) (by decide) (by decide)
    (by intro d hd; simp [demoColl] at hd; rw [hd]; decide)

/-- C6: with no session id, a missing document payload is rejected with
400 and a payload whose extraction fails (which is what an empty upload
produces, since `fitz` cannot open it) is rejected with 500; in both
cases no session record is persisted — the collection is unchanged. -/
theorem C6_new_session_requires_document (coll : ChatsCollection) (uid q fid : String)
    (ts : Nat) (chat_id : Option String) (source : TokenSource) (commitOk : Bool)
    (hu : uid ≠ "") (hq : q ≠ "")
    (hcid : chat_id = none ∨ chat_id = some "" ∨ chat_id = some "null") :
    handle_chat coll (some uid) chat_id (some q) none fid ts source commitOk =
      (.rejected 400 "A PDF file is required for a new chat.", coll) ∧
    handle_chat coll (some uid) chat_id (some q) (some none) fid ts source commitOk =
      (.rejected 500 "Failed to read PDF.", coll) := by
  constructor
  · rw [handle_chat_new_run coll uid q chat_id none fid ts source commitOk hu hq hcid]
    rfl
  · rw [handle_chat_new_run coll uid q chat_id (some none) fid ts source commitOk hu hq hcid]
    rfl

/-- Witness for C6 on an empty store: both rejections leave it empty. -/
theorem C6_new_session_requires_document_witness :
    handle_chat [] (some "u1") none (some "hi") none "f" 0 (constSource ["A"] none) true =
      (.rejected 400 "A PDF file is required for a new chat.", []) ∧
    handle_chat [] (some "u1") none (some "hi") (some none) "f" 0
        (constSource ["A"] none) true =
      (.rejected 500 "Failed to read PDF.", []) := by
  exact C6_new_session_requires_document [] "u1" "hi" "f" 0 none
    (constSource ["A"] none) true (by decide) (by decide) (Or.inl rfl)

/-- C2: every request that reaches the streaming stage with a successful
commit appends exactly one `Turn` to the resolved session's history —
never zero, never more than one — with `user` the submitted question and
`bot_markdown` the accumulated fragment text (in closed form,
`streamAccumText`).  First conjunct: the existing-session path; second:
the new-session path, where the freshly created session ends up with
exactly that one turn. -/
theorem C2_exactly_one_turn (coll : ChatsCollection) (uid q cid fid : String) (ts : Nat)
    (d : ChatDoc) (p : String) (source : TokenSource)
    (hu : uid ≠ "") (hq : q ≠ "") :
    ((cid ≠ "" → cid ≠ "null" → (coll.map Prod.fst).Nodup →
      find_one coll cid uid = some d →
      handle_chat coll (some uid) (some cid) (some q) none fid ts source true =
        (.streamed (get_gemini_response_stream source d.history q d.pdf_text ++
            [sseEndChunk cid]),
          update_one_push coll cid
            ⟨q, streamAccumText (source (gemini_messages d.history q d.pdf_text))⟩) ∧
      find_one
          (update_one_push coll cid
            ⟨q, streamAccumText (source (gemini_messages d.history q d.pdf_text))⟩)
          cid uid =
        some { d with history := d.history ++
          [⟨q, streamAccumText (source (gemini_messages d.history q d.pdf_text))⟩] }) ∧
     (fid ∉ coll.map Prod.fst →
      handle_chat coll (some uid) none (some q) (some (some p)) fid ts source true =
        (.streamed (get_gemini_response_stream source [] q p ++ [sseEndChunk fid]),
          coll ++ [(fid, (⟨uid, q.take 40 ++ "...", ts, p,
            [⟨q, streamAccumText (source (gemini_messages [] q p))⟩]⟩ : ChatDoc))]))) := by
  constructor
  · intro hc1 hc2 hn hf
    have hrun := handle_chat_existing_run coll uid q cid none fid ts source true hu hq hc1 hc2
    constructor
    · rw [hrun]
      simp [handle_chat_existing, hf, generate_response_commit]
    · exact find_one_update_push coll cid uid _ d hn hf
  · intro hfid
    rw [handle_chat_new_run coll uid q none (some (some p)) fid ts source true hu hq
      (Or.inl rfl)]
    simp only [handle_chat_new, insert_one, generate_response_commit]
    rw [update_one_push_append_fresh coll fid _ _ hfid]
    simp

set_option maxRecDepth 4096 in
/-- Witness for C2: a concrete follow-up request and a concrete first
request, each committing exactly one turn. -/
theorem C2_exactly_one_turn_witness :
    handle_chat demoColl (some "u1") (some "c1") (some "Q") none "f1" 0
        (constSource ["A"] none) true =
      (.streamed [sseTextChunk "A", sseEndChunk "c1"],
        [("c1", { demoDoc with history := [⟨"Q", "A"⟩] })]) ∧
    handle_chat demoColl (some "u1") none (some "Q") (some (some "P")) "f1" 0
        (constSource ["A"] none) true =
      (.streamed [sseTextChunk "A", sseEndChunk "f1"],
        demoColl ++ [("f1", (⟨"u1", "Q...", 0, "P", [⟨"Q", "A"⟩]⟩ : ChatDoc))]) := by
  have h := C2_exactly_one_turn demoColl "u1" "Q" "c1" "f1" 0 demoDoc "P"
    (constSource ["A"] none) (by decide) (by decide)
  constructor
  · exact ((h.1 (by decide) (by decide) (by decide) (by decide)).1).trans (by decide)
  · exact (h.2 (by decide)).trans (by decide)

/-- C3: when the token source fails after emitting some fragments, the
stream forwards the text chunks for the (non-empty) fragments already
produced, then exactly one in-stream error event, then the terminal
event — no text event follows the error — and the partial accumulation
is still committed as the turn's `bot_markdown`.  The final conjunct is
the spec's concrete example: a source emitting `["Par"]` then failing. -/
theorem C3_midstream_failure (source : TokenSource) (coll : ChatsCollection)
    (cid : String) (d : ChatDoc) (q e : String)
    (he : (source (gemini_messages d.history q d.pdf_text)).err = some e) :
    (generate_response source coll cid d q true).1 =
      ((source (gemini_messages d.history q d.pdf_text)).chunks.filter
          (fun t => t ≠ "")).map sseTextChunk ++ [sseErrorChunk e] ++ [sseEndChunk cid] ∧
    (generate_response source coll cid d q true).2 =
      update_one_push coll cid
        ⟨q, streamAccumText (source (gemini_messages d.history q d.pdf_text))⟩ ∧
    ∀ (r : String) (coll2 : ChatsCollection) (cid2 q2 : String) (d2 : ChatDoc),
      generate_response (constSource ["Par"] (some r)) coll2 cid2 d2 q2 true =
        ([sseTextChunk "Par", sseErrorChunk r, sseEndChunk cid2],
          update_one_push coll2 cid2 ⟨q2, "Par"⟩) := by
  refine ⟨?_, ?_, ?_⟩
  · rw [generate_response_commit]
    simp [get_gemini_response_stream, he]
  · rw [generate_response_commit]
  · intro r coll2 cid2 q2 d2
    rw [generate_response_commit]
    have hacc : streamAccumText (constSource ["Par"] (some r)
        (gemini_messages d2.history q2 d2.pdf_text)) = "Par" := by
      simp [streamAccumText, constSource, show cleanFragment "Par" = true from by decide,
        string_join_cons, string_join_nil]
    rw [hacc]
    simp [get_gemini_response_stream, constSource]

/-- Witness for C3: a source that yields `"Par"` and then raises
`"boom"`, against the fixture store. -/
theorem C3_midstream_failure_witness :
    generate_response (constSource ["Par"] (some "boom")) demoColl "c1" demoDoc "Q" true =
      ([sseTextChunk "Par", sseErrorChunk "boom", sseEndChunk "c1"],
        [("c1", { demoDoc with history := [⟨"Q", "Par"⟩] })]) := by
  have h := C3_midstream_failure (constSource ["Par"] (some "boom")) demoColl "c1" demoDoc
    "Q" "boom" rfl
  exact (h.2.2 "boom" demoColl "c1" "Q" demoDoc).trans (by decide)

/-- C1 (amended): when the history-commit write succeeds, the stream ends
with exactly one terminal `end_of_stream` event carrying the session id,
emitted last, regardless of whether generation succeeded or failed
mid-stream.  (The claim's further clause — that a failed commit write is
still followed by the terminal event — is false of the code: see the
counterexample.) -/
theorem C1_terminal_event (source : TokenSource) (coll : ChatsCollection) (cid : String)
    (d : ChatDoc) (q : String) :
    (generate_response source coll cid d q true).1 =
      get_gemini_response_stream source d.history q d.pdf_text ++ [sseEndChunk cid] ∧
    (generate_response source coll cid d q true).1.count (sseEndChunk cid) = 1 ∧
    (generate_response source coll cid d q true).1.getLast? = some (sseEndChunk cid) := by
  rw [generate_response_commit]
  refine ⟨rfl, ?_, ?_⟩
  · simp [List.count_append, stream_count_end]
  · simp [List.getLast?_concat]

/-- C1 counterexample: when the `update_one` commit raises, the generator
aborts and the stream contains no terminal event at all — the claim's
"a persistence failure must still be followed by the terminal event"
fails on the code. -/
theorem C1_terminal_event_counterexample :
    generate_response (constSource ["Hi"] none) demoColl "c1" demoDoc "q" false =
      ([sseTextChunk "Hi"], demoColl) ∧
    ([sseTextChunk "Hi"] : List String).count (sseEndChunk "c1") = 0 := by
  constructor
  · decide
  · decide

/-- C7 (amended): every non-empty fragment is forwarded as exactly one
text event, in generation order (fragments with empty text are skipped by
the `if chunk.text:` guard), and the committed `bot_markdown` is the
concatenation of the forwarded fragments that survive the accumulator's
`split('data: ')`/`json.loads` round-trip (`streamAccumText`), not of all
forwarded fragments.  The final conjunct is the spec's concrete example
`["Hel", "lo"]`. -/
theorem C7_fragment_events (source : TokenSource) (coll : ChatsCollection) (cid : String)
    (d : ChatDoc) (q : String) :
    (generate_response source coll cid d q true).1 =
      ((source (gemini_messages d.history q d.pdf_text)).chunks.filter
          (fun t => t ≠ "")).map sseTextChunk ++
        ((source (gemini_messages d.history q d.pdf_text)).err.elim []
          (fun e => [sseErrorChunk e])) ++ [sseEndChunk cid] ∧
    (generate_response source coll cid d q true).2 =
      update_one_push coll cid
        ⟨q, streamAccumText (source (gemini_messages d.history q d.pdf_text))⟩ ∧
    ∀ (coll2 : ChatsCollection) (cid2 q2 : String) (d2 : ChatDoc),
      generate_response (constSource ["Hel", "lo"] none) coll2 cid2 d2 q2 true =
        ([sseTextChunk "Hel", sseTextChunk "lo", sseEndChunk cid2],
          update_one_push coll2 cid2 ⟨q2, "Hello"⟩) := by
  refine ⟨?_, ?_, ?_⟩
  · rw [generate_response_commit]
    cases he : (source (gemini_messages d.history q d.pdf_text)).err with
    | none => simp [get_gemini_response_stream, he]
    | some e => simp [get_gemini_response_stream, he]
  · rw [generate_response_commit]
  · intro coll2 cid2 q2 d2
    rw [generate_response_commit]
    have hacc : streamAccumText (constSource ["Hel", "lo"] none
        (gemini_messages d2.history q2 d2.pdf_text)) = "Hello" := by
      simp [streamAccumText, constSource, show cleanFragment "Hel" = true from by decide,
        show cleanFragment "lo" = true from by decide, string_join_cons, string_join_nil]
    rw [hacc]
    simp [get_gemini_response_stream, constSource]

/-- C7 counterexample: a fragment containing the substring `'data: '` is
forwarded to the caller as a text event but dropped from the accumulator
(the split truncates its payload and `json.loads` raises), so the
committed `bot_markdown` is `"Hel"`, not the concatenation
`"Hel" ++ "data: lo"` of all forwarded fragments. -/
theorem C7_fragment_events_counterexample :
    generate_response (constSource ["Hel", "data: lo"] none) demoColl "c1" demoDoc "Q" true =
      ([sseTextChunk "Hel", sseTextChunk "data: lo", sseEndChunk "c1"],
        [("c1", { demoDoc with history := [⟨"Q", "Hel"⟩] })]) ∧
    "Hel" ≠ "Hel" ++ "data: lo" := by
  constructor
  · decide
  · decide

/-- C10: the text of an in-stream error event never contributes to the
committed `bot_markdown`: the accumulator ignores error chunks outright,
and a request whose stream raises before any text fragment commits a
turn whose `bot_markdown` is the empty string, not the error reason. -/
theorem C10_error_text_never_accumulated :
    (∀ acc e : String, accumStep acc (sseErrorChunk e) = acc) ∧
    (∀ (source : TokenSource) (coll : ChatsCollection) (cid q e : String) (d : ChatDoc),
      source (gemini_messages d.history q d.pdf_text) = ⟨[], some e⟩ →
      generate_response source coll cid d q true =
        ([sseErrorChunk e, sseEndChunk cid], update_one_push coll cid ⟨q, ""⟩)) := by
  refine ⟨accumStep_error, ?_⟩
  intro source coll cid q e d hsrc
  rw [generate_response_commit]
  simp [get_gemini_response_stream, streamAccumText, hsrc, string_join_nil]

/-- Witness for C10: a source that raises `"boom"` before yielding any
fragment commits `⟨"Q", ""⟩`. -/
theorem C10_error_text_never_accumulated_witness :
    accumStep "A" (sseErrorChunk "boom") = "A" ∧
    generate_response (constSource [] (some "boom")) demoColl "c1" demoDoc "Q" true =
      ([sseErrorChunk "boom", sseEndChunk "c1"],
        [("c1", { demoDoc with history := [⟨"Q", ""⟩] })]) := by
  constructor
  · exact C10_error_text_never_accumulated.1 "A" "boom"
  · exact (C10_error_text_never_accumulated.2 (constSource [] (some "boom")) demoColl "c1"
      "Q" "boom" demoDoc rfl).trans (by decide)

/-- C9: committing a turn mutates only the matched document's `history`
field — its key, `user_id`, `title`, `timestamp` and `pdf_text` are
unchanged, as are all other documents (first conjunct, about the
`update_one` `$push` itself); and a whole existing-session request cycle
never changes any document's key or metadata either (second conjunct),
so `pdf_text` is written only at session creation. -/
theorem C9_commit_touches_only_history (coll : ChatsCollection) (cid : String) (t : Turn)
    (uid q : String) (source : TokenSource) (commitOk : Bool) :
    List.Forall₂ (fun p pq => sameMeta p pq ∧
        (pq.2.history = p.2.history ∨ (p.1 = cid ∧ pq.2.history = p.2.history ++ [t])))
      coll (update_one_push coll cid t) ∧
    List.Forall₂ sameMeta coll (handle_chat_existing coll uid q cid source commitOk).2 := by
  refine ⟨update_one_push_frame coll cid t, ?_⟩
  unfold handle_chat_existing
  cases hf : find_one coll cid uid with
  | none =>
    simp only
    rw [List.forall₂_same]
    intro x _
    exact ⟨rfl, rfl, rfl, rfl, rfl⟩
  | some d =>
    cases commitOk with
    | true =>
      simp only [generate_response_commit]
      exact List.Forall₂.imp (fun a b h => h.1) (update_one_push_frame coll cid _)
    | false =>
      simp only [generate_response_commit_fail]
      rw [List.forall₂_same]
      intro x _
      exact ⟨rfl, rfl, rfl, rfl, rfl⟩

/-- C8: running any sequence of N requests against one session, each
reaching the streaming stage and committing successfully, leaves the
session with exactly N more turns, in submission order: the previously
committed prefix is untouched, the user texts of the appended turns are
the submitted questions in order, and no other field changes. -/
theorem C8_history_append_only (uid cid : String) :
    ∀ (reqs : List TurnRequest) (coll : ChatsCollection) (d : ChatDoc),
    uid ≠ "" → cid ≠ "" → cid ≠ "null" → (coll.map Prod.fst).Nodup →
    find_one coll cid uid = some d → (∀ r ∈ reqs, r.question ≠ "") →
    ∃ d' : ChatDoc, find_one (runChats uid cid coll reqs) cid uid = some d' ∧
      d'.history.length = d.history.length + reqs.length ∧
      d'.history.take d.history.length = d.history ∧
      d'.history.map Turn.user = d.history.map Turn.user ++ reqs.map TurnRequest.question ∧
      d'.user_id = d.user_id ∧ d'.title = d.title ∧ d'.timestamp = d.timestamp ∧
      d'.pdf_text = d.pdf_text := by
  intro reqs
  induction reqs with
  | nil =>
    intro coll d hu hc1 hc2 hn hf hq
    exact ⟨d, hf, by simp, by simp, by simp, rfl, rfl, rfl, rfl⟩
  | cons r rs ih =>
    intro coll d hu hc1 hc2 hn hf hq
    have hq1 : r.question ≠ "" := hq r (List.mem_cons_self r rs)
    have hcoll2 : (handle_chat coll (some uid) (some cid) (some r.question) none "" 0
        r.source true).2 =
        update_one_push coll cid
          ⟨r.question, streamAccumText (r.source
            (gemini_messages d.history r.question d.pdf_text))⟩ := by
      rw [handle_chat_existing_run coll uid r.question cid none "" 0 r.source true
        hu hq1 hc1 hc2]
      simp [handle_chat_existing, hf, generate_response_commit]
    rw [runChats.eq_2, hcoll2]
    have hn2 : ((update_one_push coll cid
        ⟨r.question, streamAccumText (r.source
          (gemini_messages d.history r.question d.pdf_text))⟩).map Prod.fst).Nodup := by
      rw [update_one_push_keys]
      exact hn
    have hf2 := find_one_update_push coll cid uid
      ⟨r.question, streamAccumText (r.source
        (gemini_messages d.history r.question d.pdf_text))⟩ d hn hf
    obtain ⟨d', hfind, hlen, htake, husers, hm1, hm2, hm3, hm4⟩ :=
      ih _ _ hu hc1 hc2 hn2 hf2 (fun r' hr' => hq r' (List.mem_cons_of_mem r hr'))
    refine ⟨d', hfind, ?_, ?_, ?_, hm1, hm2, hm3, hm4⟩
    · simp only [List.length_append, List.length_cons, List.length_nil] at hlen
      simp only [List.length_cons]
      omega
    · have hshift : d'.history.take d.history.length =
          (d'.history.take (d.history.length + 1)).take d.history.length := by
        rw [List.take_take]
        congr 1
        omega
      rw [hshift]
      have htake' : d'.history.take (d.history.length + 1) =
          d.history ++ [(⟨r.question, streamAccumText (r.source
            (gemini_messages d.history r.question d.pdf_text))⟩ : Turn)] := by
        simpa using htake
      rw [htake']
      exact List.take_left ..
    · simp only [List.map_append, List.map_cons, List.map_nil] at husers
      rw [husers]
      simp

/-- Witness for C8: two successive committed requests against the fixture
session leave exactly two turns, in order, with everything else intact. -/
theorem C8_history_append_only_witness :
    ∃ d' : ChatDoc,
      find_one (runChats "u1" "c1" demoColl
          [⟨"Q1", constSource ["A"] none⟩, ⟨"Q2", constSource ["B"] none⟩]) "c1" "u1" =
        some d' ∧
      d'.history.length = demoDoc.history.length + 2 ∧
      d'.history.take demoDoc.history.length = demoDoc.history ∧
      d'.history.map Turn.user = demoDoc.history.map Turn.user ++ ["Q1", "Q2"] ∧
      d'.user_id = demoDoc.user_id ∧ d'.title = demoDoc.title ∧
      d'.timestamp = demoDoc.timestamp ∧ d'.pdf_text = demoDoc.pdf_text := by
  have h := C8_history_append_only "u1" "c1"
    [⟨"Q1", constSource ["A"] none⟩, ⟨"Q2", constSource ["B"] none⟩] demoColl demoDoc
    (by decide) (by decide) (by decide) (by decide) (by decide)
    (by
      intro r hr
      simp only [List.mem_cons, List.not_mem_nil, or_false] at hr
      rcases hr with rfl | rfl <;> decide)
  simpa using h
